import Mathlib

/-!
Verification of the garden client connection layer.

This file gives a shallow embedding of the Go sources:
  src/client/connection/process.go        (process, Wait, streamPayloads)
  src/client/connection/process_stream.go (processStream, WriteStdin, CloseStdin, SetTTY, Kill)
  src/unnamed/part_000                    (connection: Create, Run, doStream, doHijack,
                                           convertEnvironmentVariables)
Go strings that are inspected character by character (environment entries) are
modelled as List Char; uninterpreted strings (paths, handles, error messages, payload
data) are modelled as String.  Go errors are modelled by their message (String);
a nil error is none.
-/

namespace Garden

/-- Wire enum protocol.ProcessPayload_Source (stdin = 0, stdout = 1, stderr = 2). -/
inductive Source where
  | stdin
  | stdout
  | stderr
deriving DecidableEq, Repr

/-- Wire enum for signals; only kill is defined. -/
inductive Signal where
  | kill
deriving DecidableEq, Repr

/-- Wire message protocol.TTY_WindowSize: two uint32 fields, modelled as Nat
holding values already reduced mod 2^32 by the encoding casts. -/
structure TTYWindowSize where
  columns : Nat
  rows : Nat
deriving DecidableEq, Repr

/-- Wire message protocol.TTY. -/
structure ProtoTTY where
  windowSize : Option TTYWindowSize := none
deriving DecidableEq, Repr

/-- Wire message protocol.ProcessPayload: one flat record with every field
optional, exactly as on the wire. -/
structure ProcessPayload where
  processId : Option Nat := none
  source : Option Source := none
  data : Option String := none
  tty : Option ProtoTTY := none
  signal : Option Signal := none
  exitStatus : Option Nat := none
  error : Option String := none
deriving DecidableEq, Repr

/-- Go GetSource(): the enum zero value (stdin) when the field is unset. -/
def ProcessPayload.getSource (p : ProcessPayload) : Source :=
  p.source.getD .stdin

/-- Go GetData(): the empty string when the field is unset. -/
def ProcessPayload.getData (p : ProcessPayload) : String :=
  p.data.getD ""

/-- One iteration input of the client read loop: decoder.Decode either yields a
payload or fails with an error. -/
inductive DecodeResult where
  | ok (p : ProcessPayload)
  | fail (e : String)
deriving DecidableEq, Repr

/-- A decode result that does not end the loop in process.go streamPayloads:
a successfully decoded payload with neither Error nor ExitStatus set. -/
def DecodeResult.nonTerminal : DecodeResult → Bool
  | .ok q => q.error.isNone && q.exitStatus.isNone
  | .fail _ => false

/-- The p.done / p.exitStatus / p.exitErr fields of the process struct in
process.go, written by exited and read by Wait.  Go zero values: done = false,
exitStatus = 0, exitErr = nil. -/
structure ProcState where
  done : Bool
  exitStatus : Int
  exitErr : Option String
deriving DecidableEq, Repr

/-- Result of process.Wait() (process.go lines 42-52): blocks until done, then
returns (exitStatus, exitErr).  none models a still-blocked caller. -/
def waitResult (p : ProcState) : Option (Int × Option String) :=
  if p.done then some (p.exitStatus, p.exitErr) else none

/-- Observable outcome of one run of streamPayloads over a finite prefix of
decode results: the bytes written to processIO.Stdout and processIO.Stderr (one
list entry per Write call, in order), the final process state, whether the
deferred stream.Close ran, and the decode results never examined by the loop. -/
structure StreamOutcome where
  stdoutWrites : List String
  stderrWrites : List String
  proc : ProcState
  connClosed : Bool
  remaining : List DecodeResult
deriving DecidableEq, Repr

/-- process.go streamPayloads (lines 72-118), read-loop side.  ho / he model
processIO.Stdout != nil and processIO.Stderr != nil.  Each list element is the
outcome of one decoder.Decode call; the loop body checks decode error, then
payload.Error, then payload.ExitStatus (in that order), and otherwise
dispatches on GetSource().  The Error and ExitStatus branches call
exited and break; the deferred p.stream.Close() then closes the connection.
If the list is exhausted with no terminal record the loop is still running:
done = false, connection still open. -/
def streamPayloads (ho he : Bool) : List DecodeResult → StreamOutcome
  | [] => ⟨[], [], ⟨false, 0, none⟩, false, []⟩
  | .fail e :: rest => ⟨[], [], ⟨true, 0, some e⟩, true, rest⟩
  | .ok q :: rest =>
    match q.error with
    | some e => ⟨[], [], ⟨true, 0, some ("process error: " ++ e)⟩, true, rest⟩
    | none =>
      match q.exitStatus with
      | some n => ⟨[], [], ⟨true, (n : Int), none⟩, true, rest⟩
      | none =>
        let out := streamPayloads ho he rest
        { out with
          stdoutWrites :=
            (if q.getSource = .stdout ∧ ho = true then [q.getData] else [])
              ++ out.stdoutWrites
          stderrWrites :=
            (if q.getSource = .stderr ∧ he = true then [q.getData] else [])
              ++ out.stderrWrites }

/-- Data written to processIO.Stdout by one decode result: the loop writes
GetData() exactly for decoded records whose GetSource() is stdout. -/
def stdoutRecordData : DecodeResult → Option String
  | .ok q => if q.getSource = .stdout then some q.getData else none
  | .fail _ => none

/-- Data written to processIO.Stderr by one decode result. -/
def stderrRecordData : DecodeResult → Option String
  | .ok q => if q.getSource = .stderr then some q.getData else none
  | .fail _ => none

theorem streamPayloads_append (ho he : Bool) (pre rest : List DecodeResult)
    (h : ∀ r ∈ pre, r.nonTerminal = true) :
    (streamPayloads ho he (pre ++ rest)).proc = (streamPayloads ho he rest).proc ∧
    (streamPayloads ho he (pre ++ rest)).connClosed
      = (streamPayloads ho he rest).connClosed ∧
    (streamPayloads ho he (pre ++ rest)).remaining
      = (streamPayloads ho he rest).remaining := by
  induction pre with
  | nil => simp
  | cons r pre ih =>
    have hr : r.nonTerminal = true := h r (List.mem_cons_self _ _)
    have hpre : ∀ x ∈ pre, x.nonTerminal = true :=
      fun x hx => h x (List.mem_cons_of_mem _ hx)
    match r with
    | .fail e => simp [DecodeResult.nonTerminal] at hr
    | .ok q =>
      simp only [DecodeResult.nonTerminal, Bool.and_eq_true, Option.isNone_iff_eq_none] at hr
      obtain ⟨hq1, hq2⟩ := hr
      simpa [streamPayloads, hq1, hq2] using ih hpre

/-- C1 (counterexample).  The claim states that whenever a decoded
ProcessPayload has exit_status set, Wait receives (that exit status, no error).
The loop in streamPayloads checks payload.Error before payload.ExitStatus, so a
payload carrying both fields delivers (0, process error) instead of
(exit status, nil): at the single record with error "boom" and exit_status 7,
Wait returns (0, some error), not (7, none). -/
theorem c1_exit_delivery_cex :
    waitResult (streamPayloads true true
        [.ok { error := some "boom", exitStatus := some 7 }]).proc
      ≠ some ((7 : Int), none) := by
  decide

/-- C1 (amended).  If the decoded records before some payload q are all
non-terminal, q has exit_status = n set and error unset, then the client
delivers (n, no error) to every caller blocked in Process.Wait, the deferred
stream.Close closes the connection, and the records after q are never
processed. -/
theorem c1_exit_delivery (ho he : Bool) (pre post : List DecodeResult)
    (q : ProcessPayload) (n : Nat)
    (hpre : ∀ r ∈ pre, r.nonTerminal = true)
    (herr : q.error = none) (hexit : q.exitStatus = some n) :
    (streamPayloads ho he (pre ++ .ok q :: post)).proc = ⟨true, (n : Int), none⟩ ∧
    waitResult (streamPayloads ho he (pre ++ .ok q :: post)).proc
      = some ((n : Int), none) ∧
    (streamPayloads ho he (pre ++ .ok q :: post)).connClosed = true ∧
    (streamPayloads ho he (pre ++ .ok q :: post)).remaining = post := by
  obtain ⟨h1, h2, h3⟩ := streamPayloads_append ho he pre (.ok q :: post) hpre
  rw [h1, h2, h3]
  simp [streamPayloads, herr, hexit, waitResult]

/-- C1 witness: a stream with one stdout record, then exit_status 3, then a
late record; the late record is left unprocessed. -/
theorem c1_exit_delivery_witness :
    (streamPayloads true true
        ([.ok { source := some .stdout, data := some "x" }]
          ++ .ok { exitStatus := some 3 } :: [.fail "late"])).proc
      = ⟨true, (3 : Int), none⟩ ∧
    waitResult (streamPayloads true true
        ([.ok { source := some .stdout, data := some "x" }]
          ++ .ok { exitStatus := some 3 } :: [.fail "late"])).proc
      = some ((3 : Int), none) ∧
    (streamPayloads true true
        ([.ok { source := some .stdout, data := some "x" }]
          ++ .ok { exitStatus := some 3 } :: [.fail "late"])).connClosed = true ∧
    (streamPayloads true true
        ([.ok { source := some .stdout, data := some "x" }]
          ++ .ok { exitStatus := some 3 } :: [.fail "late"])).remaining
      = [.fail "late"] :=
  c1_exit_delivery true true _ _ _ 3 (by decide) rfl rfl

/-- C2.  On a live stream (every decoded record so far non-terminal), with
processIO.Stdout and processIO.Stderr non-nil, the client writes exactly the
data fields of the stdout-sourced records to Stdout and of the stderr-sourced
records to Stderr, one Write per record, in decode order and unmodified. -/
theorem c2_stdout_stderr_writes (records : List DecodeResult)
    (h : ∀ r ∈ records, r.nonTerminal = true) :
    (streamPayloads true true records).stdoutWrites
      = records.filterMap stdoutRecordData ∧
    (streamPayloads true true records).stderrWrites
      = records.filterMap stderrRecordData := by
  induction records with
  | nil => simp [streamPayloads]
  | cons r rest ih =>
    have hr : r.nonTerminal = true := h r (List.mem_cons_self _ _)
    have hrest : ∀ x ∈ rest, x.nonTerminal = true :=
      fun x hx => h x (List.mem_cons_of_mem _ hx)
    obtain ⟨ih1, ih2⟩ := ih hrest
    match r with
    | .fail e => simp [DecodeResult.nonTerminal] at hr
    | .ok q =>
      simp only [DecodeResult.nonTerminal, Bool.and_eq_true, Option.isNone_iff_eq_none] at hr
      obtain ⟨hq1, hq2⟩ := hr
      cases hs : q.getSource <;>
        simp [streamPayloads, hq1, hq2, hs, stdoutRecordData, stderrRecordData,
          List.filterMap_cons, ih1, ih2]

/-- C2 witness: two stdout records around one stderr record. -/
theorem c2_stdout_stderr_writes_witness :
    (streamPayloads true true
        [.ok { source := some .stdout, data := some "a" },
         .ok { source := some .stderr, data := some "b" },
         .ok { source := some .stdout, data := some "c" }]).stdoutWrites
      = ["a", "c"] ∧
    (streamPayloads true true
        [.ok { source := some .stdout, data := some "a" },
         .ok { source := some .stderr, data := some "b" },
         .ok { source := some .stdout, data := some "c" }]).stderrWrites
      = ["b"] := by
  have h := c2_stdout_stderr_writes
    [.ok { source := some .stdout, data := some "a" },
     .ok { source := some .stderr, data := some "b" },
     .ok { source := some .stdout, data := some "c" }] (by decide)
  exact ⟨h.1.trans (by decide), h.2.trans (by decide)⟩

/-- C4.  If decoding fails with error e after only non-terminal records, the
client calls exited(0, e) and the deferred Close tears the connection down:
any caller blocked in Process.Wait returns exit status 0 with that decode
error, and later records are never examined. -/
theorem c4_decode_error (ho he : Bool) (pre post : List DecodeResult) (e : String)
    (hpre : ∀ r ∈ pre, r.nonTerminal = true) :
    (streamPayloads ho he (pre ++ .fail e :: post)).proc = ⟨true, 0, some e⟩ ∧
    waitResult (streamPayloads ho he (pre ++ .fail e :: post)).proc
      = some ((0 : Int), some e) ∧
    (streamPayloads ho he (pre ++ .fail e :: post)).connClosed = true ∧
    (streamPayloads ho he (pre ++ .fail e :: post)).remaining = post := by
  obtain ⟨h1, h2, h3⟩ := streamPayloads_append ho he pre (.fail e :: post) hpre
  rw [h1, h2, h3]
  simp [streamPayloads, waitResult]

/-- C4 witness: one stdout record, then a decode failure. -/
theorem c4_decode_error_witness :
    (streamPayloads true true
        ([.ok { source := some .stdout, data := some "x" }]
          ++ .fail "unexpected EOF" :: [])).proc
      = ⟨true, 0, some "unexpected EOF"⟩ ∧
    waitResult (streamPayloads true true
        ([.ok { source := some .stdout, data := some "x" }]
          ++ .fail "unexpected EOF" :: [])).proc
      = some ((0 : Int), some "unexpected EOF") ∧
    (streamPayloads true true
        ([.ok { source := some .stdout, data := some "x" }]
          ++ .fail "unexpected EOF" :: [])).connClosed = true ∧
    (streamPayloads true true
        ([.ok { source := some .stdout, data := some "x" }]
          ++ .fail "unexpected EOF" :: [])).remaining = [] :=
  c4_decode_error true true _ _ _ (by decide)

/-- C5.  When the terminal payload carries an error string e, Wait returns
exit status 0 together with the non-nil error "process error: " ++ e, whose
message contains e as a substring. -/
theorem c5_error_payload (ho he : Bool) (pre post : List DecodeResult)
    (q : ProcessPayload) (e : String)
    (hpre : ∀ r ∈ pre, r.nonTerminal = true)
    (herr : q.error = some e) :
    waitResult (streamPayloads ho he (pre ++ .ok q :: post)).proc
      = some ((0 : Int), some ("process error: " ++ e)) ∧
    ∃ a b, "process error: " ++ e = a ++ e ++ b := by
  obtain ⟨h1, _h2, _h3⟩ := streamPayloads_append ho he pre (.ok q :: post) hpre
  rw [h1]
  refine ⟨by simp [streamPayloads, herr, waitResult], "process error: ", "", ?_⟩
  rw [String.append_empty]

/-- C5 witness: terminal error record "oh no!" after a stderr chunk. -/
theorem c5_error_payload_witness :
    waitResult (streamPayloads true true
        ([.ok { source := some .stderr, data := some "x" }]
          ++ .ok { error := some "oh no!" } :: [])).proc
      = some ((0 : Int), some ("process error: " ++ "oh no!")) ∧
    ∃ a b, "process error: " ++ "oh no!" = a ++ "oh no!" ++ b :=
  c5_error_payload true true _ _ _ "oh no!" (by decide) rfl

/-- processStream.WriteStdin (process_stream.go lines 23-29): one whole record
with ProcessId, Source = stdin and Data set. -/
def writeStdinPayload (id : Nat) (d : String) : ProcessPayload :=
  { processId := some id, source := some .stdin, data := some d }

/-- processStream.CloseStdin (process_stream.go lines 31-36): one whole record
with ProcessId and Source = stdin but no Data. -/
def closeStdinPayload (id : Nat) : ProcessPayload :=
  { processId := some id, source := some .stdin }

/-- processStream.SetTTY (process_stream.go lines 38-52): one whole record with
ProcessId and Tty set; the window size fields are uint32 casts of the spec. -/
def setTTYPayload (id : Nat) (tty : ProtoTTY) : ProcessPayload :=
  { processId := some id, tty := some tty }

/-- processStream.Kill (process_stream.go lines 54-59): one whole record with
ProcessId and Signal = kill. -/
def killPayload (id : Nat) : ProcessPayload :=
  { processId := some id, signal := some .kill }

/-- The user reader handed to streamPayloads as processIO.Stdin, abstracted as
the chunks io.Copy reads from it, ended either by EOF (endErr = none) or by a
read error (endErr = some e). -/
structure StdinSource where
  chunks : List String
  endErr : Option String
deriving DecidableEq, Repr

/-- Modelled from the spec: the stdinWriter type wrapping the process stream is
referenced by process.go line 76 but its definition is not under src/.  Per the
spec, the spawned goroutine copies from the user reader into WriteStdin calls;
on copy EOF it closes stdin (stdinWriter.Close sends the CloseStdin record);
on any other copy error it calls p.stream.Close() on the whole connection
(process.go lines 75-86).  Result: the ProcessPayload records sent on the
stream, and whether the whole connection was hard-closed. -/
def copyStdin (id : Nat) (src : StdinSource) : List ProcessPayload × Bool :=
  match src.endErr with
  | none => (src.chunks.map (writeStdinPayload id) ++ [closeStdinPayload id], false)
  | some _ => (src.chunks.map (writeStdinPayload id), true)

/-- C3.  With a non-nil processIO.Stdin: every record sent by the stdin copier
is a whole stdin record stamped with the process id; on EOF the copier sends
one WriteStdin record per chunk followed by exactly one stdin record carrying
no data, without closing the connection; on a read error it sends only the
chunk records and hard-closes the whole connection (no stdin-close record). -/
theorem c3_stdin_copy (id : Nat) (src : StdinSource) :
    (∀ p ∈ (copyStdin id src).1, p.source = some .stdin ∧ p.processId = some id) ∧
    (src.endErr = none →
      (copyStdin id src).1
          = src.chunks.map (writeStdinPayload id) ++ [closeStdinPayload id] ∧
      (copyStdin id src).2 = false ∧
      ((copyStdin id src).1.countP fun p => p.data.isNone) = 1) ∧
    (∀ e, src.endErr = some e →
      (copyStdin id src).1 = src.chunks.map (writeStdinPayload id) ∧
      (copyStdin id src).2 = true ∧
      ((copyStdin id src).1.countP fun p => p.data.isNone) = 0) := by
  have hmap : ∀ p ∈ src.chunks.map (writeStdinPayload id),
      p.source = some Source.stdin ∧ p.processId = some id := by
    intro p hp
    obtain ⟨c, _, rfl⟩ := List.mem_map.mp hp
    exact ⟨rfl, rfl⟩
  have hcount : (src.chunks.map (writeStdinPayload id)).countP
      (fun p => p.data.isNone) = 0 := by
    rw [List.countP_eq_zero]
    intro p hp
    obtain ⟨c, _, rfl⟩ := List.mem_map.mp hp
    simp [writeStdinPayload]
  cases hend : src.endErr with
  | none =>
    refine ⟨?_, fun _ => ⟨by simp [copyStdin, hend], by simp [copyStdin, hend], ?_⟩,
      fun e h => by simp [hend] at h⟩
    · intro p hp
      simp only [copyStdin, hend, List.mem_append, List.mem_singleton] at hp
      rcases hp with hp | rfl
      · exact hmap p hp
      · exact ⟨rfl, rfl⟩
    · simp only [copyStdin, hend, List.countP_append, hcount]
      simp [closeStdinPayload, List.countP_cons]
  | some e0 =>
    refine ⟨?_, fun h => by simp [hend] at h,
      fun e h => ⟨by simp [copyStdin, hend], by simp [copyStdin, hend], ?_⟩⟩
    · intro p hp
      simp only [copyStdin, hend] at hp
      exact hmap p hp
    · simpa only [copyStdin, hend] using hcount

/-- C3 witness: two chunks ending in EOF, and one chunk ending in a read
error. -/
theorem c3_stdin_copy_witness :
    ((copyStdin 7 ⟨["ab", "c"], none⟩).1
        = [writeStdinPayload 7 "ab", writeStdinPayload 7 "c", closeStdinPayload 7] ∧
      (copyStdin 7 ⟨["ab", "c"], none⟩).2 = false ∧
      ((copyStdin 7 ⟨["ab", "c"], none⟩).1.countP fun p => p.data.isNone) = 1) ∧
    ((copyStdin 7 ⟨["x"], some "read failed"⟩).1 = [writeStdinPayload 7 "x"] ∧
      (copyStdin 7 ⟨["x"], some "read failed"⟩).2 = true ∧
      ((copyStdin 7 ⟨["x"], some "read failed"⟩).1.countP
        fun p => p.data.isNone) = 0) := by
  constructor
  · have h := (c3_stdin_copy 7 ⟨["ab", "c"], none⟩).2.1 rfl
    exact ⟨h.1.trans (by decide), h.2.1, h.2.2⟩
  · exact (c3_stdin_copy 7 ⟨["x"], some "read failed"⟩).2.2 "read failed" rfl

/-- One event on the outbound side of a hijacked connection: taking or
releasing the stream mutex, or writing one whole framed record. -/
inductive StreamEvent where
  | lock
  | unlock
  | write (p : ProcessPayload)
deriving DecidableEq, Repr

/-- processStream.sendPayload (process_stream.go lines 65-77): s.Lock(), one
transport.WriteMessage of the whole record, then s.Unlock() on both the error
and the success path.  The trace of events is the same either way. -/
def sendPayload (p : ProcessPayload) : List StreamEvent :=
  [.lock, .write p, .unlock]

/-- Outbound trace of processStream.WriteStdin. -/
def writeStdinTrace (id : Nat) (d : String) : List StreamEvent :=
  sendPayload (writeStdinPayload id d)

/-- Outbound trace of processStream.CloseStdin. -/
def closeStdinTrace (id : Nat) : List StreamEvent :=
  sendPayload (closeStdinPayload id)

/-- Outbound trace of processStream.SetTTY. -/
def setTTYTrace (id : Nat) (tty : ProtoTTY) : List StreamEvent :=
  sendPayload (setTTYPayload id tty)

/-- Outbound trace of processStream.Kill. -/
def killTrace (id : Nat) : List StreamEvent :=
  sendPayload (killPayload id)

/-- Every write event in the trace happens while the mutex hold depth is
positive, starting from depth n. -/
def writesUnderLock : List StreamEvent → Nat → Bool
  | [], _ => true
  | .lock :: rest, n => writesUnderLock rest (n + 1)
  | .unlock :: rest, n => writesUnderLock rest (n - 1)
  | .write _ :: rest, n => decide (0 < n) && writesUnderLock rest n

/-- Number of whole-record writes in a trace. -/
def writeCount (es : List StreamEvent) : Nat :=
  es.countP fun e => match e with | .write _ => true | _ => false

/-- C8.  Each of the four outbound operations on a process stream (WriteStdin,
CloseStdin, SetTTY, Kill) goes through sendPayload, whose trace is exactly
lock, one whole-record write, unlock: every record write is performed while
holding the stream mutex, the mutex is released afterwards, and each call
writes exactly one whole record (so concurrent callers cannot interleave
half-written records). -/
theorem c8_writes_hold_mutex (id : Nat) (d : String) (tty : ProtoTTY) :
    writeStdinTrace id d = [.lock, .write (writeStdinPayload id d), .unlock] ∧
    closeStdinTrace id = [.lock, .write (closeStdinPayload id), .unlock] ∧
    setTTYTrace id tty = [.lock, .write (setTTYPayload id tty), .unlock] ∧
    killTrace id = [.lock, .write (killPayload id), .unlock] ∧
    writesUnderLock (writeStdinTrace id d) 0 = true ∧
    writesUnderLock (closeStdinTrace id) 0 = true ∧
    writesUnderLock (setTTYTrace id tty) 0 = true ∧
    writesUnderLock (killTrace id) 0 = true ∧
    writeCount (writeStdinTrace id d) = 1 ∧
    writeCount (closeStdinTrace id) = 1 ∧
    writeCount (setTTYTrace id tty) = 1 ∧
    writeCount (killTrace id) = 1 := by
  refine ⟨rfl, rfl, rfl, rfl, rfl, rfl, rfl, rfl, rfl, rfl, rfl, rfl⟩

/-- Go strings.SplitN(s, sep, 2) for sep a single character: when sep occurs,
the prefix before its first occurrence and everything after it; otherwise the
one-element list containing s. -/
def splitN2 (sep : Char) (cs : List Char) : List (List Char) :=
  if sep ∈ cs then [cs.takeWhile (· ≠ sep), (cs.dropWhile (· ≠ sep)).tail]
  else [cs]

/-- Wire message protocol.EnvironmentVariable with optional Key and Value both
set by the conversion (proto.String is always non-nil). -/
structure EnvironmentVariable where
  key : List Char
  value : List Char
deriving DecidableEq, Repr

/-- connection.convertEnvironmentVariables (part_000 lines 835-853): each entry
is split at the first '=' by strings.SplitN(env, sep, 2) and the two segments
are accessed by index; when an entry has no '=' the split yields one segment
and the access segs[1] is out of bounds, which panics — modelled as none. -/
def convertEnvironmentVariables : List (List Char) → Option (List EnvironmentVariable)
  | [] => some []
  | e :: rest => do
    let segs := splitN2 '=' e
    let k ← segs[0]?
    let v ← segs[1]?
    let restConv ← convertEnvironmentVariables rest
    pure (⟨k, v⟩ :: restConv)

theorem convertEnvironmentVariables_eq (envs : List (List Char)) :
    convertEnvironmentVariables envs =
      if ∀ e ∈ envs, ('=' : Char) ∈ e then
        some (envs.map fun e =>
          ⟨e.takeWhile (· ≠ '='), (e.dropWhile (· ≠ '=')).tail⟩)
      else none := by
  induction envs with
  | nil => simp [convertEnvironmentVariables]
  | cons e rest ih =>
    by_cases he : ('=' : Char) ∈ e
    · have hsplit : splitN2 '=' e
          = [e.takeWhile (· ≠ '='), (e.dropWhile (· ≠ '=')).tail] := by
        simp [splitN2, he]
      by_cases hrest : ∀ x ∈ rest, ('=' : Char) ∈ x
      · rw [if_pos (show ∀ x ∈ e :: rest, ('=' : Char) ∈ x from
          List.forall_mem_cons.mpr ⟨he, hrest⟩)]
        simp only [convertEnvironmentVariables, hsplit, ih, if_pos hrest]
        rfl
      · rw [if_neg (show ¬ ∀ x ∈ e :: rest, ('=' : Char) ∈ x from
          fun hall => hrest ((List.forall_mem_cons.mp hall).2))]
        simp only [convertEnvironmentVariables, hsplit, ih, if_neg hrest]
        rfl
    · rw [if_neg (show ¬ ∀ x ∈ e :: rest, ('=' : Char) ∈ x from
        fun hall => he ((List.forall_mem_cons.mp hall).1))]
      have hsplit : splitN2 '=' e = [e] := by
        simp [splitN2, he]
      simp only [convertEnvironmentVariables, hsplit]
      rfl

theorem env_split_rejoin (cs : List Char) (h : ('=' : Char) ∈ cs) :
    cs.takeWhile (· ≠ '=') ++ '=' :: (cs.dropWhile (· ≠ '=')).tail = cs := by
  induction cs with
  | nil => cases h
  | cons c cs ih =>
    by_cases hc : c = '='
    · subst hc
      rw [List.takeWhile_cons_of_neg (by simp), List.dropWhile_cons_of_neg (by simp)]
      simp
    · have h2 : ('=' : Char) ∈ cs := by
        rcases List.mem_cons.mp h with h1 | h1
        · exact absurd h1.symm hc
        · exact h1
      rw [List.takeWhile_cons_of_pos (by simpa using hc),
        List.dropWhile_cons_of_pos (by simpa using hc)]
      simp only [List.cons_append, List.cons.injEq, true_and]
      exact ih h2

/-- C9.  Characterization of convertEnvironmentVariables, which Create (line
149) and Run (line 271) apply to spec.Env: when every entry contains '=', it
yields one key/value pair per entry, pairing the prefix before the first '='
with the remainder; when any entry lacks '=', the segs[1] access is out of
bounds and the call panics (none) — totality requires '=' in every entry. -/
theorem c9_convertEnv (envs : List (List Char)) :
    convertEnvironmentVariables envs =
      if ∀ e ∈ envs, ('=' : Char) ∈ e then
        some (envs.map fun e =>
          ⟨e.takeWhile (· ≠ '='), (e.dropWhile (· ≠ '=')).tail⟩)
      else none :=
  convertEnvironmentVariables_eq envs

/-- api.WindowSize: two Go int fields (the encoding casts them to uint32). -/
structure WindowSize where
  columns : Int
  rows : Int
deriving DecidableEq, Repr

/-- api.TTYSpec. -/
structure TTYSpec where
  windowSize : Option WindowSize := none
deriving DecidableEq, Repr

/-- api.ResourceLimits: fifteen optional uint64 rlimits, copied field by field
into protocol.ResourceLimits by Run (part_000 lines 254-270); missing means
inherit. -/
structure ResourceLimits where
  as : Option Nat := none
  core : Option Nat := none
  cpu : Option Nat := none
  data : Option Nat := none
  fsize : Option Nat := none
  locks : Option Nat := none
  memlock : Option Nat := none
  msgqueue : Option Nat := none
  nice : Option Nat := none
  nofile : Option Nat := none
  nproc : Option Nat := none
  rss : Option Nat := none
  rtprio : Option Nat := none
  sigpending : Option Nat := none
  stack : Option Nat := none
deriving DecidableEq, Repr

/-- api.ProcessSpec as used by connection.Run: path, argv, working dir, user,
environment entries, privileged flag, rlimits and optional TTY. -/
structure ProcessSpec where
  path : String
  args : List String
  dir : String
  user : String
  env : List (List Char)
  privileged : Bool
  limits : ResourceLimits
  tty : Option TTYSpec
deriving DecidableEq, Repr

/-- Wire message protocol.RunRequest as built by connection.Run.  Rlimits is
always set by Run (a fresh struct with the fifteen optional fields copied), so
it is modelled as a plain field. -/
structure RunRequest where
  handle : Option String
  path : Option String
  args : List String
  dir : Option String
  privileged : Option Bool
  user : Option String
  tty : Option ProtoTTY
  rlimits : ResourceLimits
  env : List EnvironmentVariable
deriving DecidableEq, Repr

/-- Go uint32(x) for x a Go int: reduction mod 2^32. -/
def u32OfInt (x : Int) : Nat :=
  (x % (4294967296 : Int)).toNat

/-- connection.Run, request-building part (part_000 lines 226-272): Dir is sent
only when non-empty; TTY and its WindowSize are translated with uint32 casts;
the fifteen rlimits are copied; Env goes through convertEnvironmentVariables
(whose panic on an entry without '=' is modelled as none). -/
def encodeRunRequest (handle : String) (spec : ProcessSpec) : Option RunRequest :=
  (convertEnvironmentVariables spec.env).map fun envp =>
    { handle := some handle
      path := some spec.path
      args := spec.args
      dir := if spec.dir = "" then none else some spec.dir
      privileged := some spec.privileged
      user := some spec.user
      tty := spec.tty.map fun t =>
        ⟨t.windowSize.map fun w => ⟨u32OfInt w.columns, u32OfInt w.rows⟩⟩
      rlimits := spec.limits
      env := envp }

/-- Modelled from the spec: the server-side decoding of a RunRequest into the
ProcessSpec handed to backend.Run is not under src/ (only the round-trip test
RunArgsForCall is).  Per the spec the backend receives the spec the client
sent, each wire field decoded back into the corresponding ProcessSpec field,
with absent optional strings decoding to their Go zero value and each
environment pair rejoined as key=value. -/
def decodeRunRequest (req : RunRequest) : ProcessSpec :=
  { path := req.path.getD ""
    args := req.args
    dir := req.dir.getD ""
    user := req.user.getD ""
    privileged := req.privileged.getD false
    env := req.env.map fun kv => kv.key ++ '=' :: kv.value
    limits := req.rlimits
    tty := req.tty.map fun t =>
      ⟨t.windowSize.map fun w => ⟨(w.columns : Int), (w.rows : Int)⟩⟩ }

theorem env_pairs_rejoin (envs : List (List Char))
    (h : ∀ e ∈ envs, ('=' : Char) ∈ e) :
    (envs.map fun e =>
        (⟨e.takeWhile (· ≠ '='), (e.dropWhile (· ≠ '=')).tail⟩ :
          EnvironmentVariable)).map (fun kv => kv.key ++ '=' :: kv.value)
      = envs := by
  induction envs with
  | nil => rfl
  | cons e rest ih =>
    have he : ('=' : Char) ∈ e := h e (List.mem_cons_self _ _)
    have hrest : ∀ x ∈ rest, ('=' : Char) ∈ x :=
      fun x hx => h x (List.mem_cons_of_mem _ hx)
    simp only [List.map_cons, List.cons.injEq]
    exact ⟨env_split_rejoin e he, ih hrest⟩

/-- A concrete ProcessSpec whose TTY window size has Columns = -1 (a Go int
value the uint32 cast wraps to 4294967295). -/
def negColumnsSpec : ProcessSpec where
  path := "/some/script"
  args := []
  dir := ""
  user := ""
  env := []
  privileged := false
  limits := {}
  tty := some ⟨some ⟨-1, 24⟩⟩

/-- C6 (counterexample).  The claim asserts the round-trip is the identity for
any ProcessSpec, but the uint32 casts on the TTY window size are lossy: a spec
with WindowSize.Columns = -1 decodes to columns 4294967295.  (Independently, a
spec with an env entry lacking '=' makes the encoding panic, see C9.) -/
theorem c6_roundtrip_cex :
    (encodeRunRequest "some-handle" negColumnsSpec).map decodeRunRequest
      ≠ some negColumnsSpec := by
  decide

/-- C6 (amended).  For any ProcessSpec whose environment entries each contain
'=' and whose TTY window-size columns and rows lie in [0, 2^32), the spec
obtained by decoding the encoded RunRequest equals the spec the client sent:
path, args, dir, user, env, privileged flag, TTY window size and the fifteen
optional rlimits all round-trip. -/
theorem c6_roundtrip (handle : String) (spec : ProcessSpec)
    (henv : ∀ e ∈ spec.env, ('=' : Char) ∈ e)
    (htty : ∀ t, spec.tty = some t → ∀ w, t.windowSize = some w →
      0 ≤ w.columns ∧ w.columns < 4294967296 ∧
      0 ≤ w.rows ∧ w.rows < 4294967296) :
    (encodeRunRequest handle spec).map decodeRunRequest = some spec := by
  obtain ⟨path, args, dir, user, env, privileged, limits, tty⟩ := spec
  simp only at henv htty
  have hconv : convertEnvironmentVariables env
      = some (env.map fun e =>
          ⟨e.takeWhile (· ≠ '='), (e.dropWhile (· ≠ '=')).tail⟩) := by
    rw [convertEnvironmentVariables_eq, if_pos henv]
  have hdir : (if dir = "" then none else some dir).getD "" = dir := by
    by_cases hd : dir = "" <;> simp [hd]
  have henvrt := env_pairs_rejoin env henv
  have httyrt : (tty.map fun t =>
        (⟨t.windowSize.map fun w =>
          ⟨u32OfInt w.columns, u32OfInt w.rows⟩⟩ : ProtoTTY)).map
          (fun t => (⟨t.windowSize.map fun w =>
            ⟨(w.columns : Int), (w.rows : Int)⟩⟩ : TTYSpec))
      = tty := by
    cases tty with
    | none => rfl
    | some t =>
      obtain ⟨ws⟩ := t
      cases ws with
      | none => rfl
      | some w =>
        obtain ⟨hc0, hc1, hr0, hr1⟩ := htty ⟨some w⟩ rfl w rfl
        obtain ⟨c, r⟩ := w
        simp only at hc0 hc1 hr0 hr1
        simp only [Option.map_some', Option.some.injEq, TTYSpec.mk.injEq,
          WindowSize.mk.injEq]
        constructor
        · rw [u32OfInt, Int.emod_eq_of_lt hc0 hc1, Int.toNat_of_nonneg hc0]
        · rw [u32OfInt, Int.emod_eq_of_lt hr0 hr1, Int.toNat_of_nonneg hr0]
  simp only [encodeRunRequest, hconv, Option.map_some', decodeRunRequest,
    Option.getD_some, Option.some.injEq]
  simp only [ProcessSpec.mk.injEq, true_and, and_true]
  exact ⟨hdir, henvrt, httyrt⟩

/-- A concrete fully populated ProcessSpec with environment entries FL=ch and
TO=sp and an in-range 80 by 24 window size. -/
def fullSpec : ProcessSpec where
  path := "/some/script"
  args := ["arg1", "arg2"]
  dir := "/some/dir"
  user := "alice"
  env := [['F', 'L', '=', 'c', 'h'], ['T', 'O', '=', 's', 'p']]
  privileged := true
  limits := { as := some 1, core := some 2, cpu := some 3 }
  tty := some ⟨some ⟨80, 24⟩⟩

/-- C6 witness: the fully populated in-range spec round-trips. -/
theorem c6_roundtrip_witness :
    (encodeRunRequest "some-handle" fullSpec).map decodeRunRequest
      = some fullSpec :=
  c6_roundtrip "some-handle" fullSpec (by decide)
    (by intro t ht w hw; cases ht; cases hw; decide)

/-- Base-2 logarithm (floor) with explicit fuel so that it is structurally
recursive: log2fuel fuel n is the floor of log2 n whenever 1 <= n < 2^fuel. -/
def log2fuel : Nat → Nat → Nat
  | 0, _ => 0
  | fuel + 1, n => if 2 ≤ n then log2fuel fuel (n / 2) + 1 else 0

/-- The rational 2^k for an integer exponent k, via Nat powers. -/
def qpow2 (k : Int) : ℚ :=
  if 0 ≤ k then ((2 ^ k.toNat : Nat) : ℚ) else 1 / ((2 ^ (-k).toNat : Nat) : ℚ)

/-- Floor of log2 of a rational, read off the integer part of q * 2^64; valid
for 2^-64 ≤ q < 2^64, which covers every value arising here. -/
def floorLog2 (q : ℚ) : Int :=
  (log2fuel 128 (⌊q * 18446744073709551616⌋).toNat : Int) - 64

/-- Round a rational to the nearest integer, ties to even (the IEEE-754
default rounding direction). -/
def rnde (s : ℚ) : Int :=
  if s - (⌊s⌋ : ℚ) < 1 / 2 then ⌊s⌋
  else if 1 / 2 < s - (⌊s⌋ : ℚ) then ⌊s⌋ + 1
  else if ⌊s⌋ % 2 = 0 then ⌊s⌋ else ⌊s⌋ + 1

/-- Round a positive rational to the nearest IEEE-754 binary64 value: a 53-bit
significand at the exponent of q, round to nearest, ties to even.  Nonpositive
inputs map to 0; subnormals and overflow do not arise in the modelled range
(all intermediate values here lie in [2^-31, 2^33)). -/
def fl64 (q : ℚ) : ℚ :=
  if q ≤ 0 then 0
  else (rnde (q * qpow2 (52 - floorLog2 q)) : ℚ) / qpow2 (52 - floorLog2 q)

/-- Go time.Duration.Seconds() for a nonnegative duration of ns nanoseconds
(standard library code, not part of this repository): sec := d / 1e9 and
nsec := d % 1e9 in integer arithmetic, then float64(sec) + float64(nsec)/1e9
in binary64 arithmetic.  Both sec and nsec are below 2^53, so their float64
conversions are exact; one rounding remains for the division and one for the
addition. -/
def durationSeconds (ns : Nat) : ℚ :=
  fl64 ((ns / 1000000000 : Nat) + fl64 ((ns % 1000000000 : Nat) / (1000000000 : ℚ)))

/-- Go uint32(v) for a float64 value v: the fraction is discarded (truncation
toward zero); when the truncated value is not representable in uint32 the
result is implementation-dependent, modelled as none. -/
def u32OfFloat (v : ℚ) : Option Nat :=
  if 0 ≤ v ∧ ⌊v⌋ < 4294967296 then some (⌊v⌋).toNat else none

/-- connection.Create, grace-time field (part_000 lines 140-142): the wire
field is set only when spec.GraceTime != 0, to uint32(GraceTime.Seconds()).
The duration is ns nanoseconds (a nonnegative Go time.Duration); Seconds() is
the float64 computation durationSeconds and the uint32 cast is u32OfFloat
(inner none = implementation-dependent out-of-range conversion). -/
def createGraceTime (ns : Nat) : Option (Option Nat) :=
  if ns ≠ 0 then some (u32OfFloat (durationSeconds ns)) else none

theorem log2fuel_le (fuel : Nat) : ∀ n, 1 ≤ n → 2 ^ log2fuel fuel n ≤ n := by
  induction fuel with
  | zero =>
    intro n h
    simpa [log2fuel] using h
  | succ fuel ih =>
    intro n h
    simp only [log2fuel]
    by_cases h2 : 2 ≤ n
    · rw [if_pos h2]
      have hh : 1 ≤ n / 2 := (Nat.one_le_div_iff (by norm_num)).mpr h2
      have hrec := ih (n / 2) hh
      have hd : n / 2 * 2 ≤ n := Nat.div_mul_le_self n 2
      calc 2 ^ (log2fuel fuel (n / 2) + 1) = 2 ^ log2fuel fuel (n / 2) * 2 := by ring
        _ ≤ n / 2 * 2 := Nat.mul_le_mul_right 2 hrec
        _ ≤ n := hd
    · rw [if_neg h2]
      simpa using h

theorem log2fuel_lt (fuel : Nat) : ∀ n, n < 2 ^ fuel → n < 2 ^ (log2fuel fuel n + 1) := by
  induction fuel with
  | zero =>
    intro n h
    simp only [log2fuel]
    simp only [pow_zero] at h
    exact lt_of_lt_of_le h (by norm_num)
  | succ fuel ih =>
    intro n h
    simp only [log2fuel]
    by_cases h2 : 2 ≤ n
    · rw [if_pos h2]
      have hdiv : n / 2 < 2 ^ fuel := by
        rw [pow_succ] at h
        omega
      have hrec := ih (n / 2) hdiv
      rw [pow_succ]
      omega
    · rw [if_neg h2]
      have : n < 2 := by omega
      exact lt_of_lt_of_le this (by norm_num)

theorem qpow2_eq_zpow (k : Int) : qpow2 k = (2 : ℚ) ^ k := by
  rw [qpow2]
  by_cases h : 0 ≤ k
  · rw [if_pos h, Nat.cast_pow, Nat.cast_ofNat,
      ← zpow_natCast (2 : ℚ) k.toNat, Int.toNat_of_nonneg h]
  · rw [if_neg h, Nat.cast_pow, Nat.cast_ofNat, one_div,
      ← zpow_natCast (2 : ℚ) (-k).toNat, ← zpow_neg]
    congr 1
    omega

theorem qpow2_pos (k : Int) : 0 < qpow2 k := by
  rw [qpow2_eq_zpow]
  exact zpow_pos (by norm_num) k

theorem qpow2_add (a b : Int) : qpow2 (a + b) = qpow2 a * qpow2 b := by
  rw [qpow2_eq_zpow, qpow2_eq_zpow, qpow2_eq_zpow,
    zpow_add₀ (by norm_num : (2 : ℚ) ≠ 0)]

theorem qpow2_mono {a b : Int} (h : a ≤ b) : qpow2 a ≤ qpow2 b := by
  rw [qpow2_eq_zpow, qpow2_eq_zpow]
  exact zpow_le_zpow_right₀ (by norm_num) h

theorem qpow2_natCast (m : Nat) : qpow2 (m : ℤ) = ((2 ^ m : ℕ) : ℚ) := by
  rw [qpow2, if_pos (Int.natCast_nonneg m)]
  congr 2

theorem floorLog2_le {q : ℚ} (h1 : 1 ≤ q * 18446744073709551616) :
    qpow2 (floorLog2 q) ≤ q := by
  set n : Int := ⌊q * 18446744073709551616⌋ with hn
  have hn1 : 1 ≤ n := Int.le_floor.mpr (by exact_mod_cast h1)
  have hnq : (n : ℚ) ≤ q * 18446744073709551616 := by
    rw [hn]
    exact Int.floor_le _
  have hlog : 2 ^ log2fuel 128 n.toNat ≤ n.toNat := log2fuel_le 128 n.toNat (by omega)
  have h2L : qpow2 (log2fuel 128 n.toNat) ≤ (n : ℚ) := by
    rw [qpow2_natCast]
    calc ((2 ^ log2fuel 128 n.toNat : ℕ) : ℚ) ≤ ((n.toNat : ℕ) : ℚ) := by
          exact_mod_cast hlog
      _ = (n : ℚ) := by
          have hnn : ((n.toNat : ℕ) : ℤ) = n := Int.toNat_of_nonneg (by omega)
          exact_mod_cast congrArg (fun z : ℤ => (z : ℚ)) hnn
  have hmain : qpow2 (floorLog2 q) * 18446744073709551616 ≤ q * 18446744073709551616 := by
    have hsplit : qpow2 ((log2fuel 128 n.toNat : ℤ) - 64) * 18446744073709551616
        = qpow2 (log2fuel 128 n.toNat) := by
      have h64 : (18446744073709551616 : ℚ) = qpow2 64 := by
        rw [show ((64 : ℤ)) = ((64 : ℕ) : ℤ) from rfl, qpow2_natCast]
        norm_num
      rw [h64, ← qpow2_add]
      congr 1
      ring
    rw [floorLog2, ← hn, hsplit]
    exact le_trans h2L hnq
  have hpos : (0 : ℚ) < 18446744073709551616 := by norm_num
  exact (mul_le_mul_right hpos).mp hmain

theorem floorLog2_gt {q : ℚ} (h1 : 1 ≤ q * 18446744073709551616)
    (h2 : q < 18446744073709551616) : q < qpow2 (floorLog2 q + 1) := by
  set n : Int := ⌊q * 18446744073709551616⌋ with hn
  have hn1 : 1 ≤ n := Int.le_floor.mpr (by exact_mod_cast h1)
  have hq1 : q * 18446744073709551616 < (n : ℚ) + 1 := by
    rw [hn]
    exact Int.lt_floor_add_one _
  have hub : n.toNat < 2 ^ 128 := by
    have hfl : (n : ℚ) ≤ q * 18446744073709551616 := by
      rw [hn]
      exact Int.floor_le _
    have hq2 : q * 18446744073709551616
        < 340282366920938463463374607431768211456 := by nlinarith
    have hint : n < 340282366920938463463374607431768211456 := by
      exact_mod_cast lt_of_le_of_lt hfl hq2
    have h128 : (2 : ℕ) ^ 128 = 340282366920938463463374607431768211456 := by norm_num
    omega
  have hlog := log2fuel_lt 128 n.toNat hub
  have hstep : (n : ℚ) + 1 ≤ qpow2 ((log2fuel 128 n.toNat : ℤ) + 1) := by
    have hcast : ((log2fuel 128 n.toNat : ℤ) + 1)
        = ((log2fuel 128 n.toNat + 1 : ℕ) : ℤ) := by push_cast; ring
    rw [hcast, qpow2_natCast]
    have hz : n + 1 ≤ ((2 ^ (log2fuel 128 n.toNat + 1) : ℕ) : ℤ) := by
      have hnn : ((n.toNat : ℕ) : ℤ) = n := Int.toNat_of_nonneg (by omega)
      have hlogz : ((n.toNat : ℕ) : ℤ) < ((2 ^ (log2fuel 128 n.toNat + 1) : ℕ) : ℤ) := by
        exact_mod_cast hlog
      omega
    exact_mod_cast hz
  have hfin : q * 18446744073709551616 < qpow2 ((log2fuel 128 n.toNat : ℤ) + 1) :=
    lt_of_lt_of_le hq1 hstep
  have hsplit : floorLog2 q + 1 = ((log2fuel 128 n.toNat : ℤ) + 1) + (-64) := by
    rw [floorLog2, ← hn]
    ring
  rw [hsplit, qpow2_add]
  have hq64pos : (0 : ℚ) < qpow2 (-64) := qpow2_pos _
  have hcancel : (18446744073709551616 : ℚ) * qpow2 (-64) = 1 := by
    have h64 : (18446744073709551616 : ℚ) = qpow2 64 := by
      rw [show ((64 : ℤ)) = ((64 : ℕ) : ℤ) from rfl, qpow2_natCast]
      norm_num
    rw [h64, ← qpow2_add]
    rw [show (64 : ℤ) + (-64) = ((0 : ℕ) : ℤ) from by norm_num, qpow2_natCast]
    norm_num
  calc q = q * 18446744073709551616 * qpow2 (-64) := by
        rw [mul_assoc, hcancel, mul_one]
    _ < qpow2 ((log2fuel 128 n.toNat : ℤ) + 1) * qpow2 (-64) :=
        mul_lt_mul_of_pos_right hfin hq64pos

theorem floorLog2_lt_of_lt {q : ℚ} {m : Int} (h1 : 1 ≤ q * 18446744073709551616)
    (h2 : q < qpow2 m) : floorLog2 q < m := by
  by_contra hle
  push_neg at hle
  exact absurd (lt_of_lt_of_le h2 (qpow2_mono hle)) (not_lt.mpr (floorLog2_le h1))

theorem rnde_le (s : ℚ) : (rnde s : ℚ) ≤ s + 1 / 2 := by
  have h1 := Int.floor_le s
  have h2 := Int.lt_floor_add_one s
  rw [rnde]
  by_cases ha : s - (⌊s⌋ : ℚ) < 1 / 2
  · rw [if_pos ha]
    linarith
  · rw [if_neg ha]
    push_neg at ha
    by_cases hb : 1 / 2 < s - (⌊s⌋ : ℚ)
    · rw [if_pos hb]
      push_cast
      linarith
    · rw [if_neg hb]
      by_cases hc : ⌊s⌋ % 2 = 0
      · rw [if_pos hc]
        linarith
      · rw [if_neg hc]
        push_cast
        linarith

theorem le_rnde (s : ℚ) : s - 1 / 2 ≤ (rnde s : ℚ) := by
  have h1 := Int.floor_le s
  have h2 := Int.lt_floor_add_one s
  rw [rnde]
  by_cases ha : s - (⌊s⌋ : ℚ) < 1 / 2
  · rw [if_pos ha]
    linarith
  · rw [if_neg ha]
    push_neg at ha
    by_cases hb : 1 / 2 < s - (⌊s⌋ : ℚ)
    · rw [if_pos hb]
      push_cast
      linarith
    · rw [if_neg hb]
      by_cases hc : ⌊s⌋ % 2 = 0
      · rw [if_pos hc]
        linarith
      · rw [if_neg hc]
        push_cast
        linarith

theorem rnde_intCast (m : Int) : rnde (m : ℚ) = m := by
  rw [rnde, Int.floor_intCast]
  rw [if_pos (by norm_num)]

theorem fl64_bounds {q : ℚ} (h1 : 1 ≤ q * 18446744073709551616) :
    q - qpow2 (floorLog2 q - 53) ≤ fl64 q ∧ fl64 q ≤ q + qpow2 (floorLog2 q - 53) := by
  have hq : 0 < q := by nlinarith
  rw [fl64, if_neg (not_le.mpr hq)]
  have hkpos : (0 : ℚ) < qpow2 (52 - floorLog2 q) := qpow2_pos _
  have hub := rnde_le (q * qpow2 (52 - floorLog2 q))
  have hlb := le_rnde (q * qpow2 (52 - floorLog2 q))
  have hkey : qpow2 (floorLog2 q - 53) * qpow2 (52 - floorLog2 q) = 1 / 2 := by
    rw [← qpow2_add]
    rw [show floorLog2 q - 53 + (52 - floorLog2 q) = -1 from by ring]
    rw [qpow2]
    norm_num
  constructor
  · rw [le_div_iff₀ hkpos, sub_mul, hkey]
    exact hlb
  · rw [div_le_iff₀ hkpos, add_mul, hkey]
    exact hub

theorem fl64_natCast {n : Nat} (h1 : 1 ≤ n) (h2 : n < 4503599627370496) :
    fl64 (n : ℚ) = n := by
  have hq0 : (0 : ℚ) < n := by exact_mod_cast h1
  have h1n : (1 : ℚ) ≤ (n : ℚ) := by exact_mod_cast h1
  have hq64 : 1 ≤ (n : ℚ) * 18446744073709551616 := by nlinarith
  have hub : (n : ℚ) < 18446744073709551616 := by
    have : (n : ℚ) < 4503599627370496 := by exact_mod_cast h2
    linarith
  have he0 : 0 ≤ floorLog2 (n : ℚ) := by
    by_contra hneg
    push_neg at hneg
    have hgt := floorLog2_gt hq64 hub
    have hle : qpow2 (floorLog2 (n : ℚ) + 1) ≤ qpow2 ((0 : ℕ) : ℤ) :=
      qpow2_mono (by omega)
    rw [qpow2_natCast] at hle
    norm_num at hle
    linarith [lt_of_lt_of_le hgt hle]
  have he52 : floorLog2 (n : ℚ) ≤ 52 := by
    have hlt : (n : ℚ) < qpow2 ((52 : ℕ) : ℤ) := by
      rw [qpow2_natCast]
      have : ((2 ^ 52 : ℕ) : ℚ) = 4503599627370496 := by norm_num
      rw [this]
      exact_mod_cast h2
    have := floorLog2_lt_of_lt hq64 hlt
    omega
  rw [fl64, if_neg (not_le.mpr hq0)]
  set K : Nat := (52 - floorLog2 (n : ℚ)).toNat with hK
  have hqK : qpow2 (52 - floorLog2 (n : ℚ)) = ((2 ^ K : ℕ) : ℚ) := by
    rw [show (52 - floorLog2 (n : ℚ)) = ((K : ℕ) : ℤ) from by omega, qpow2_natCast]
  rw [hqK]
  have hsc : (n : ℚ) * ((2 ^ K : ℕ) : ℚ) = ((n * 2 ^ K : ℕ) : ℚ) := by
    push_cast
    ring
  rw [hsc]
  have hr : rnde ((n * 2 ^ K : ℕ) : ℚ) = ((n * 2 ^ K : ℕ) : ℤ) := by
    have hcast : (((n * 2 ^ K : ℕ) : ℤ) : ℚ) = ((n * 2 ^ K : ℕ) : ℚ) := by
      push_cast
      ring
    rw [← hcast, rnde_intCast]
  rw [hr]
  rw [div_eq_iff (ne_of_gt (by positivity : (0 : ℚ) < ((2 ^ K : ℕ) : ℚ)))]
  push_cast
  ring

theorem u32_seconds_eq {s f : Nat} (hs : s < 16777216) (hf : f < 1000000000)
    (hnz : s + f ≠ 0) :
    u32OfFloat (durationSeconds (s * 1000000000 + f)) = some s := by
  have hdiv : (s * 1000000000 + f) / 1000000000 = s := by omega
  have hmod : (s * 1000000000 + f) % 1000000000 = f := by omega
  rw [durationSeconds, hdiv, hmod]
  by_cases hf0 : f = 0
  · subst hf0
    have hs1 : 1 ≤ s := by omega
    rw [Nat.cast_zero, zero_div,
      show fl64 0 = 0 from by rw [fl64, if_pos le_rfl], add_zero,
      fl64_natCast hs1 (by omega)]
    have hfl : ⌊((s : ℕ) : ℚ)⌋ = (s : ℤ) := Int.floor_natCast s
    rw [u32OfFloat, if_pos ⟨by positivity,
      by rw [hfl]; exact_mod_cast (by omega : s < 4294967296)⟩, hfl]
    simp
  · have hf1 : 1 ≤ f := by omega
    have hq1lb : (1 : ℚ) / 1000000000 ≤ (f : ℚ) / 1000000000 := by
      gcongr
      exact_mod_cast hf1
    have hq1ub : (f : ℚ) / 1000000000 ≤ 999999999 / 1000000000 := by
      gcongr
      exact_mod_cast (by omega : f ≤ 999999999)
    have h1q1 : 1 ≤ (f : ℚ) / 1000000000 * 18446744073709551616 := by linarith
    have he1 : floorLog2 ((f : ℚ) / 1000000000) ≤ -1 := by
      have hlt : (f : ℚ) / 1000000000 < qpow2 ((0 : ℕ) : ℤ) := by
        rw [qpow2_natCast]
        norm_num
        linarith
      have := floorLog2_lt_of_lt h1q1 hlt
      omega
    obtain ⟨hy1, hy2⟩ := fl64_bounds h1q1
    have herr1 : qpow2 (floorLog2 ((f : ℚ) / 1000000000) - 53)
        ≤ 1 / 18014398509481984 := by
      have hm := qpow2_mono
        (show floorLog2 ((f : ℚ) / 1000000000) - 53 ≤ -54 from by omega)
      rwa [show qpow2 (-54) = 1 / 18014398509481984 from by
        rw [qpow2]; norm_num [show ((54 : ℤ)).toNat = 54 from rfl]] at hm
    have herr1pos : 0 < qpow2 (floorLog2 ((f : ℚ) / 1000000000) - 53) := qpow2_pos _
    set y : ℚ := fl64 ((f : ℚ) / 1000000000) with hy
    have hylb : 1 / 1000000000 - 1 / 18014398509481984 ≤ y := by linarith
    have hyub : y ≤ 999999999 / 1000000000 + 1 / 18014398509481984 := by linarith
    have hs0 : (0 : ℚ) ≤ (s : ℚ) := by positivity
    have hsub : (s : ℚ) ≤ 16777215 := by exact_mod_cast (by omega : s ≤ 16777215)
    have h1out : 1 ≤ ((s : ℚ) + y) * 18446744073709551616 := by nlinarith
    have heout : floorLog2 ((s : ℚ) + y) ≤ 23 := by
      have hlt : (s : ℚ) + y < qpow2 ((24 : ℕ) : ℤ) := by
        rw [qpow2_natCast]
        norm_num
        linarith
      have := floorLog2_lt_of_lt h1out hlt
      omega
    obtain ⟨hv1, hv2⟩ := fl64_bounds h1out
    have herr2 : qpow2 (floorLog2 ((s : ℚ) + y) - 53) ≤ 1 / 1073741824 := by
      have hm := qpow2_mono (show floorLog2 ((s : ℚ) + y) - 53 ≤ -30 from by omega)
      rwa [show qpow2 (-30) = 1 / 1073741824 from by
        rw [qpow2]; norm_num [show ((30 : ℤ)).toNat = 30 from rfl]] at hm
    have herr2pos : 0 < qpow2 (floorLog2 ((s : ℚ) + y) - 53) := qpow2_pos _
    set v : ℚ := fl64 ((s : ℚ) + y) with hv
    have hvlb : (s : ℚ) < v := by linarith
    have hvub : v < (s : ℚ) + 1 := by linarith
    have hfl : ⌊v⌋ = (s : ℤ) := by
      rw [Int.floor_eq_iff]
      constructor
      · push_cast
        linarith
      · push_cast
        linarith
    rw [u32OfFloat, if_pos ⟨by linarith,
      by rw [hfl]; exact_mod_cast (by omega : s < 4294967296)⟩, hfl]
    simp

/-- C10 (counterexample).  The claim says fractional seconds are always
dropped, but Seconds() goes through float64: for a grace time of 2^24 seconds
plus 999999999 ns the addition float64(16777216) + float64(999999999)/1e9
rounds up to exactly 16777217.0 (the gap to the next double at that magnitude
is 2^-28, and the fraction is within half of it of 1), so Create transmits
16777217 even though the duration has only 16777216 whole seconds. -/
theorem c10_grace_time_cex :
    createGraceTime (16777216 * 1000000000 + 999999999) = some (some 16777217) ∧
    (16777216 * 1000000000 + 999999999) / 1000000000 = 16777216 := by
  have hinner : fl64 ((999999999 : ℚ) / 1000000000)
      = 9007199245733793 / 9007199254740992 := by
    have hfloorA : ⌊(999999999 : ℚ) / 1000000000 * 18446744073709551616⌋
        = 18446744055262807542 := by
      rw [Int.floor_eq_iff]
      norm_num
    have he1 : floorLog2 ((999999999 : ℚ) / 1000000000) = -1 := by
      rw [floorLog2, hfloorA]
      decide
    have hq53 : qpow2 (53 : ℤ) = 9007199254740992 := by
      rw [show ((53 : ℤ)) = ((53 : ℕ) : ℤ) from rfl, qpow2_natCast]
      norm_num
    have hscA : (999999999 : ℚ) / 1000000000 * 9007199254740992
        = 9007199245733792745259008 / 1000000000 := by norm_num
    have hfloorB : ⌊(9007199245733792745259008 : ℚ) / 1000000000⌋
        = 9007199245733792 := by
      rw [Int.floor_eq_iff]
      norm_num
    have hrndeA : rnde ((9007199245733792745259008 : ℚ) / 1000000000)
        = 9007199245733793 := by
      rw [rnde, hfloorB, if_neg (by norm_num), if_pos (by norm_num)]
      norm_num
    rw [fl64, if_neg (by norm_num), he1,
      show (52 : ℤ) - (-1) = 53 from by norm_num, hq53, hscA, hrndeA]
    norm_num
  have houter : fl64 ((16777216 : ℚ) + 9007199245733793 / 9007199254740992)
      = 16777217 := by
    have hsum : (16777216 : ℚ) + 9007199245733793 / 9007199254740992
        = 151115736459027892572065 / 9007199254740992 := by norm_num
    rw [hsum]
    have hfloorC : ⌊(151115736459027892572065 : ℚ) / 9007199254740992
        * 18446744073709551616⌋ = 309485028268089123987589120 := by
      rw [Int.floor_eq_iff]
      norm_num
    have he2 : floorLog2 ((151115736459027892572065 : ℚ) / 9007199254740992)
        = 24 := by
      rw [floorLog2, hfloorC]
      decide
    have hq28 : qpow2 (28 : ℤ) = 268435456 := by
      rw [show ((28 : ℤ)) = ((28 : ℕ) : ℤ) from rfl, qpow2_natCast]
      norm_num
    have hscC : (151115736459027892572065 : ℚ) / 9007199254740992 * 268435456
        = 151115736459027892572065 / 33554432 := by norm_num
    have hfloorD : ⌊(151115736459027892572065 : ℚ) / 33554432⌋
        = 4503599895805951 := by
      rw [Int.floor_eq_iff]
      norm_num
    have hrndeC : rnde ((151115736459027892572065 : ℚ) / 33554432)
        = 4503599895805952 := by
      rw [rnde, hfloorD, if_neg (by norm_num), if_pos (by norm_num)]
      norm_num
    rw [fl64, if_neg (by norm_num), he2,
      show (52 : ℤ) - 24 = 28 from by norm_num, hq28, hscC, hrndeC]
    norm_num
  have hu : u32OfFloat (16777217 : ℚ) = some 16777217 := by
    have hfl : ⌊(16777217 : ℚ)⌋ = 16777217 := by
      rw [Int.floor_eq_iff]
      norm_num
    rw [u32OfFloat, if_pos ⟨by norm_num, by rw [hfl]; norm_num⟩, hfl]
    rfl
  constructor
  · rw [createGraceTime, if_pos (by norm_num), durationSeconds,
      show (16777216 * 1000000000 + 999999999) / 1000000000 = 16777216 from by norm_num,
      show (16777216 * 1000000000 + 999999999) % 1000000000 = 999999999 from by norm_num]
    push_cast
    rw [hinner, houter, hu]
  · norm_num

/-- C10 (amended).  Create omits the grace-time field exactly when
spec.GraceTime is zero.  For a non-zero duration of s whole seconds plus f
fractional nanoseconds with s < 2^24, the transmitted value
uint32(GraceTime.Seconds()) is exactly s: the fraction is dropped, and in
particular any non-zero duration strictly below one second is sent as the
explicit value 0.  (Above 2^24 s the float64 rounding of Seconds() can round
a fraction near one second up to the next whole second, and near 2^32 s the
float-to-uint32 conversion becomes implementation-defined.) -/
theorem c10_grace_time (s f : Nat) (hs : s < 16777216) (hf : f < 1000000000)
    (hnz : s + f ≠ 0) :
    createGraceTime 0 = none ∧
    createGraceTime (s * 1000000000 + f) = some (some s) := by
  constructor
  · simp [createGraceTime]
  · rw [createGraceTime, if_pos (by omega : s * 1000000000 + f ≠ 0),
      u32_seconds_eq hs hf hnz]

/-- C10 witness: 41.5 seconds is sent as the explicit value 41, half a second
as the explicit value 0, and zero is omitted. -/
theorem c10_grace_time_witness :
    (createGraceTime 0 = none ∧
      createGraceTime (41 * 1000000000 + 500000000) = some (some 41)) ∧
    createGraceTime (0 * 1000000000 + 500000000) = some (some 0) :=
  ⟨c10_grace_time 41 500000000 (by decide) (by decide) (by decide),
    (c10_grace_time 0 500000000 (by decide) (by decide) (by decide)).2⟩

end Garden
